import Mathlib

set_option exponentiation.threshold 4000
set_option maxRecDepth 8000

/-!
Verification of the SeQUeNCe discrete-event quantum-network simulator
specification against the repository's code.

The repository ships its test suite (`tests/topology/test_node.py`) and two
example drivers; the simulator core (Timeline, Node, optical channels,
QuantumRepeater) is exercised but not included, so the core is modelled from
the specification, with every concrete behaviour pinned by the exact values
asserted in `test_node.py`.

Times are integer picoseconds (`Nat`), as the spec's virtual-time model
requires.  The kernel is a priority queue of events keyed by
`(time, insertion sequence)`; `run` repeatedly pops the minimum and
dispatches it.  All randomness comes from an explicit tape of 53-bit
numerators (`u = k / 2^53`), matching `numpy.random.random_sample`; the
tape for numpy seed 0 is computed by an MT19937 embedding below.
-/

/-- Modelled from the spec: an event dispatched by the timeline.  The spec's
`(execution_time, target_entity_id, method_selector, arguments, ...)` tuple is
specialised to the three method selectors the claims exercise:
`receive_message`, `receive_qubit`, and a repeater's scheduled emission. -/
inductive SimAction where
  | recvMsg (dst src msg : String)
  | recvQubit (dst src photon : String)
  | emit (dst : String)
deriving DecidableEq, Repr

/-- Modelled from the spec: a scheduled event `(time, sequence, action)`.
The sequence number is the monotonically increasing insertion counter used to
break ties on `time`. -/
structure SimEvent where
  time : Nat
  seq : Nat
  act : SimAction
deriving DecidableEq, Repr

/-- Lexicographic dequeue order on events: earlier time first, ties broken by
insertion sequence (FIFO), as the spec's ordering rules require. -/
def SimEvent.keyLe (a b : SimEvent) : Prop :=
  a.time < b.time ∨ (a.time = b.time ∧ a.seq ≤ b.seq)

/-- Strict version of `SimEvent.keyLe`. -/
def SimEvent.keyLt (a b : SimEvent) : Prop :=
  a.time < b.time ∨ (a.time = b.time ∧ a.seq < b.seq)

/-- Boolean form of `SimEvent.keyLe`, used by the executable queue. -/
def SimEvent.keyLeB (a b : SimEvent) : Bool :=
  Nat.blt a.time b.time || (Nat.beq a.time b.time && Nat.ble a.seq b.seq)

theorem SimEvent.keyLeB_iff (a b : SimEvent) : a.keyLeB b = true ↔ a.keyLe b := by
  simp [SimEvent.keyLeB, SimEvent.keyLe]

/-- Modelled from the spec: the timeline plus the per-node state the claims
observe.  `msgLog n` / `qubitLog n` are the receive logs a `FakeNode` of the
test suite keeps (entries `(now, src, payload)`); `urand` is the stream of
uniform draws as 53-bit numerators with `rngIdx` the number of draws consumed;
`entities`, `initCalls`, `initDone` model the entity registry and `init`. -/
structure Sim where
  time : Nat
  seqCount : Nat
  events : List SimEvent
  msgLog : String → List (Nat × String × String)
  qubitLog : String → List (Nat × String × String)
  urand : Nat → Nat
  rngIdx : Nat
  entities : List (String × Bool)
  initCalls : List String
  initDone : Bool

/-- Modelled from the spec: `schedule(event)` inserts the event with key
`(time, monotonically increasing sequence number)`. -/
def Sim.schedule (s : Sim) (t : Nat) (a : SimAction) : Sim :=
  { s with events := s.events ++ [⟨t, s.seqCount, a⟩], seqCount := s.seqCount + 1 }

/-- Advance the virtual clock by one picosecond (the tests' `tl.time += 1`). -/
def Sim.tick (s : Sim) : Sim :=
  { s with time := s.time + 1 }

/-- Remove the minimum event under `(time, seq)` from a pending list,
returning it together with the remaining events in their original order. -/
def popMin : List SimEvent → Option (SimEvent × List SimEvent)
  | [] => none
  | e :: rest =>
    match popMin rest with
    | none => some (e, [])
    | some (m, r) => if SimEvent.keyLeB e m then some (e, rest) else some (m, e :: r)

/-- Modelled from the spec: dispatching one event advances `now()` to the
event's time and invokes the target method; `receive_message` and
`receive_qubit` append `(now, src, payload)` to the destination's log. -/
def dispatch (s : Sim) (e : SimEvent) : Sim :=
  match e.act with
  | .recvMsg dst src msg =>
    { s with time := e.time,
             msgLog := fun n => if n = dst then s.msgLog n ++ [(e.time, src, msg)] else s.msgLog n }
  | .recvQubit dst src ph =>
    { s with time := e.time,
             qubitLog := fun n => if n = dst then s.qubitLog n ++ [(e.time, src, ph)] else s.qubitLog n }
  | .emit _ => { s with time := e.time }

/-- Fuelled event loop: pop the minimum pending event and dispatch it.  The
handlers reached by the claims schedule no further events, so
`s.events.length` fuel drains the queue exactly. -/
def runFuel : Nat → Sim → Sim
  | 0, s => s
  | f + 1, s =>
    match popMin s.events with
    | none => s
    | some (e, rest) => runFuel f (dispatch { s with events := rest } e)

/-- Modelled from the spec: `run()` repeatedly pops the minimum event,
advances the clock and dispatches, until the queue is empty. -/
def Sim.run (s : Sim) : Sim := runFuel s.events.length s

/-- The order in which `run` dispatches a pending list: repeatedly extract
the `(time, seq)`-minimum. -/
def processOrder : Nat → List SimEvent → List SimEvent
  | 0, _ => []
  | f + 1, l =>
    match popMin l with
    | none => []
    | some (e, r) => e :: processOrder f r

/-- The log entry an event contributes to node `d`'s message log, if any. -/
def entryForMsg (d : String) (e : SimEvent) : Option (Nat × String × String) :=
  match e.act with
  | .recvMsg dst src msg => if d = dst then some (e.time, src, msg) else none
  | _ => none

/-- The log entry an event contributes to node `d`'s qubit log, if any. -/
def entryForQubit (d : String) (e : SimEvent) : Option (Nat × String × String) :=
  match e.act with
  | .recvQubit dst src ph => if d = dst then some (e.time, src, ph) else none
  | _ => none

/-- Modelled from the spec: light travels the fibre at `2e-4` metres per
picosecond (`2e8 m/s`), so a channel's propagation delay in picoseconds is
`distance / (2e-4) = distance * 5000` for a distance in metres. -/
def fiberDelay (distance : Nat) : Nat := distance * 5000

/-- Modelled from the spec: a classical channel `(attenuation, distance,
delay)`; the attenuation parameter is unused for classical payloads. -/
structure ClassicalChannel where
  attenuation : ℚ
  distance : Nat
  delay : Nat

/-- Modelled from the spec: constructing a classical channel without an
explicit delay computes `delay = distance / c_fiber`. -/
def ClassicalChannel.make (att : ℚ) (distance : Nat) : ClassicalChannel :=
  ⟨att, distance, fiberDelay distance⟩

/-- Modelled from the spec: a quantum channel `(attenuation, distance,
delay)` with loss decided per transmission. -/
structure QuantumChannel where
  attenuation : ℚ
  distance : Nat
  delay : Nat

/-- Modelled from the spec: constructing a quantum channel computes the
propagation delay `distance / c_fiber`. -/
def QuantumChannel.make (att : ℚ) (distance : Nat) : QuantumChannel :=
  ⟨att, distance, fiberDelay distance⟩

/-- The loss rule reproducing the test suite's asserted outcomes: a photon is
kept exactly when the uniform draw `u = k / 2^53` exceeds the loss
probability `1 - p`, where `p = 10^(-attenuation * distance / 10)` is the
survival probability.  With the loss exponent written as the fraction
`a / b = attenuation * distance / 10` (for nonnegative attenuation) and
`g = gcd a b`, the irrational comparison `1 - u < 10^(-a/b)` is decided
exactly over `ℕ` as `(2^53 - k)^(b/g) * 10^(a/g) < 2^(53 * (b/g))`;
`photonKept_iff_real` below proves this equivalence. -/
def photonKept (att : ℚ) (distance k : Nat) : Bool :=
  let a := att.num.toNat * distance
  let b := att.den * 10
  let g := Nat.gcd a b
  Nat.blt ((2 ^ 53 - k) ^ (b / g) * 10 ^ (a / g)) (2 ^ (53 * (b / g)))

/-- Following the spec's words (for comparison with `photonKept`): the spec
says the photon is dropped exactly when `u` exceeds the survival probability
`p` itself, i.e. kept exactly when `u ≤ p = 10^(-attenuation*distance/10)`,
decided exactly over `ℕ` in the same way as `photonKept`. -/
def photonKeptSpec (att : ℚ) (distance k : Nat) : Bool :=
  let a := att.num.toNat * distance
  let b := att.den * 10
  let g := Nat.gcd a b
  Nat.ble (k ^ (b / g) * 10 ^ (a / g)) (2 ^ (53 * (b / g)))

/-- Modelled from the spec: a node with a name and per-peer classical and
quantum channel maps. -/
structure Node where
  name : String
  cchannels : List (String × ClassicalChannel)
  qchannels : List (String × QuantumChannel)

/-- Look up the classical channel registered for a destination. -/
def lookupCC : List (String × ClassicalChannel) → String → Option ClassicalChannel
  | [], _ => none
  | (d, c) :: rest, dst => if d = dst then some c else lookupCC rest dst

/-- Look up the quantum channel registered for a destination. -/
def lookupQC : List (String × QuantumChannel) → String → Option QuantumChannel
  | [], _ => none
  | (d, c) :: rest, dst => if d = dst then some c else lookupQC rest dst

/-- Modelled from the spec: `cc.set_ends(node1, node2)` registers the same
channel object on both nodes, one for each direction. -/
def ClassicalChannel.set_ends (cc : ClassicalChannel) (name1 name2 : String) : Node × Node :=
  (⟨name1, [(name2, cc)], []⟩, ⟨name2, [(name1, cc)], []⟩)

/-- Modelled from the spec: `qc.set_ends(node1, node2)` registers the same
quantum channel on both nodes. -/
def QuantumChannel.set_ends (qc : QuantumChannel) (name1 name2 : String) : Node × Node :=
  (⟨name1, [], [(name2, qc)]⟩, ⟨name2, [], [(name1, qc)]⟩)

/-- Modelled from the spec: `Node.send_message(dst, msg)` hands the message
to the classical channel towards `dst`, which schedules a
`receive_message(src, msg)` event on the destination at `now() + delay`;
messages are never lost. -/
def Node.send_message (n : Node) (s : Sim) (dst msg : String) : Sim :=
  match lookupCC n.cchannels dst with
  | some cc => s.schedule (s.time + cc.delay) (SimAction.recvMsg dst n.name msg)
  | none => s

/-- Modelled from the spec: `Node.send_qubit(dst, photon)` hands the photon
to the quantum channel towards `dst`; `transmit` draws one uniform `u` from
the stream, drops the photon or schedules `receive_qubit(src, photon)` on the
destination at `now() + distance / c_fiber`. -/
def Node.send_qubit (n : Node) (s : Sim) (dst ph : String) : Sim :=
  match lookupQC n.qchannels dst with
  | some qc =>
    let k := s.urand s.rngIdx
    let s' := { s with rngIdx := s.rngIdx + 1 }
    if photonKept qc.attenuation qc.distance k then
      s'.schedule (s'.time + qc.delay) (SimAction.recvQubit dst n.name ph)
    else s'
  | none => s

/-- A send operation as issued by the tests before `run`: a classical send,
a qubit send, or a manual clock advance (`tl.time += 1`). -/
inductive SendOp where
  | msg (n : Node) (dst m : String)
  | qubit (n : Node) (dst ph : String)
  | wait

/-- Apply a list of send operations in order. -/
def applySendOps (s : Sim) : List SendOp → Sim
  | [] => s
  | SendOp.msg n dst m :: rest => applySendOps (n.send_message s dst m) rest
  | SendOp.qubit n dst ph :: rest => applySendOps (n.send_qubit s dst ph) rest
  | SendOp.wait :: rest => applySendOps s.tick rest

/-- The empty per-node log assignment. -/
def emptyLog : String → List (Nat × String × String) := fun _ => []

/-- A fresh simulation state over a given random tape. -/
def sim0 (tape : Nat → Nat) : Sim :=
  { time := 0, seqCount := 0, events := [], msgLog := emptyLog, qubitLog := emptyLog,
    urand := tape, rngIdx := 0, entities := [], initCalls := [], initDone := false }

/-- The all-zero random tape, for scenarios that draw no randomness. -/
def zeroTape : Nat → Nat := fun _ => 0

/-! ### MT19937, the generator behind `numpy.random.seed(0)`

`test_Node_send_qubit` seeds numpy's global Mersenne Twister with 0 and
draws one `random_sample()` per transmitted photon.  The first forty 32-bit
outputs after seeding depend only on the initial state array (the twist at
position `n < 227` reads only untouched positions), so they are computed
directly from the seeded state. -/

/-- One step of MT19937 state initialisation:
`mt[i] = (1812433253 * (mt[i-1] xor (mt[i-1] >> 30)) + i) mod 2^32`. -/
def mtNext (x i : Nat) : Nat := (1812433253 * (x ^^^ (x >>> 30)) + i) % 4294967296

/-- The seeded state array built backwards: `mtTable n = [mt n, …, mt 1, mt 0]`
for seed 0 (`mt 0 = 0`). -/
def mtTable : Nat → List Nat
  | 0 => [0]
  | n + 1 =>
    match mtTable n with
    | [] => []
    | x :: xs => mtNext x (n + 1) :: x :: xs

/-- The 624-word MT19937 state for seed 0, in index order. -/
def mtState : List Nat := (mtTable 623).reverse

/-- The MT19937 tempering transform. -/
def temper (x : Nat) : Nat :=
  let y1 := x ^^^ (x >>> 11)
  let y2 := y1 ^^^ ((y1 <<< 7) &&& 2636928640)
  let y3 := y2 ^^^ ((y2 <<< 15) &&& 4022730752)
  y3 ^^^ (y3 >>> 18)

/-- The `n`-th 32-bit output after seeding with 0 (valid for `n < 227`, where
the twist reads only initial-state words): combine the sign bit of word `n`
with the low bits of word `n+1`, xor into word `n+397`, temper. -/
def mtRaw (n : Nat) : Nat :=
  let a := mtState
  let y := ((a.getD n 0) &&& 2147483648) ||| ((a.getD (n + 1) 0) &&& 2147483647)
  temper ((a.getD (n + 397) 0) ^^^ (y >>> 1) ^^^ (if y % 2 = 1 then 2567483615 else 0))

/-- The 53-bit numerator of the `i`-th `numpy.random.random_sample()` draw
after `seed(0)`: `u_i = mtNumer i / 2^53`, built from outputs `2i` and
`2i+1` as `(out_{2i} >> 5) * 2^26 + (out_{2i+1} >> 6)`. -/
def mtNumer (i : Nat) : Nat := (mtRaw (2 * i) >>> 5) * 67108864 + (mtRaw (2 * i + 1) >>> 6)

/-! ### The two-node classical-message scenario of `test_Node_send_message` -/

/-- The attenuation `2e-4` of both test channels, as a rational in lowest
terms (`1/5000`); `attTest_eq` identifies it with `2 / 10^4`. -/
def attTest : ℚ := ⟨1, 5000, by norm_num, by norm_num⟩

theorem attTest_eq : attTest = 2 / 10 ^ 4 := by
  unfold attTest
  rw [Rat.mk'_eq_divInt, Rat.divInt_eq_div]; norm_num

/-- The channel of `test_Node_send_message`:
`ClassicalChannel("cc", tl, 2e-4, 1e3)`. -/
def ccTest : ClassicalChannel := ClassicalChannel.make attTest 1000

/-- The two `FakeNode`s joined by `ccTest.set_ends`. -/
def msgNodes : Node × Node := ccTest.set_ends "node1" "node2"

/-- The ten payloads `"0"` through `"9"`. -/
def digits : List String := ["0", "1", "2", "3", "4", "5", "6", "7", "8", "9"]

/-- One direction of the test's send loop: send each message, advancing the
clock by one picosecond after each send. -/
def sendLoopMsgs (n : Node) (dst : String) (msgs : List String) (s : Sim) : Sim :=
  msgs.foldl (fun st m => (n.send_message st dst m).tick) s

/-- The state of `test_Node_send_message` just before `tl.run()`: node1 sends
"0".."9" at times 0..9, then node2 sends "0".."9" at times 10..19. -/
def msgScenario : Sim :=
  sendLoopMsgs msgNodes.2 "node1" digits (sendLoopMsgs msgNodes.1 "node2" digits (sim0 zeroTape))

example :
    msgScenario.run.msgLog "node2" =
      [(5000000, "node1", "0"), (5000001, "node1", "1"), (5000002, "node1", "2"),
       (5000003, "node1", "3"), (5000004, "node1", "4"), (5000005, "node1", "5"),
       (5000006, "node1", "6"), (5000007, "node1", "7"), (5000008, "node1", "8"),
       (5000009, "node1", "9")] := by decide

example :
    msgScenario.run.msgLog "node1" =
      [(5000010, "node2", "0"), (5000011, "node2", "1"), (5000012, "node2", "2"),
       (5000013, "node2", "3"), (5000014, "node2", "4"), (5000015, "node2", "5"),
       (5000016, "node2", "6"), (5000017, "node2", "7"), (5000018, "node2", "8"),
       (5000019, "node2", "9")] := by decide

/-! ### The lossy qubit scenario of `test_Node_send_qubit` -/

/-- The channel of `test_Node_send_qubit`:
`QuantumChannel("qc", tl, 2e-4, 2e4)`. -/
def qcTest : QuantumChannel := QuantumChannel.make attTest 20000

/-- The two `FakeNode`s joined by `qcTest.set_ends`. -/
def qubitNodes : Node × Node := qcTest.set_ends "node1" "node2"

/-- One direction of the test's qubit loop: send each photon, advancing the
clock by one picosecond after each send. -/
def sendLoopQubits (n : Node) (dst : String) (phs : List String) (s : Sim) : Sim :=
  phs.foldl (fun st ph => (n.send_qubit st dst ph).tick) s

/-- The state of `test_Node_send_qubit` just before `tl.run()`: after
`numpy.random.seed(0)`, node1 sends photons "0".."9" at times 0..9, then
node2 sends photons "0".."9" at times 10..19; each transmission consumes one
uniform draw in order. -/
def qubitScenario : Sim :=
  sendLoopQubits qubitNodes.2 "node1" digits (sendLoopQubits qubitNodes.1 "node2" digits (sim0 mtNumer))

example :
    qubitScenario.run.qubitLog "node2" =
      [(100000001, "node1", "1"), (100000002, "node1", "2"), (100000005, "node1", "5"),
       (100000007, "node1", "7"), (100000008, "node1", "8")] := by decide

example :
    qubitScenario.run.qubitLog "node1" =
      [(100000010, "node2", "0"), (100000013, "node2", "3"), (100000017, "node2", "7"),
       (100000018, "node2", "8"), (100000019, "node2", "9")] := by decide

/-! ### Ordering properties of the event queue -/

theorem SimEvent.keyLe_refl (a : SimEvent) : a.keyLe a := by
  unfold SimEvent.keyLe; omega

theorem SimEvent.keyLe_trans {a b c : SimEvent} (h1 : a.keyLe b) (h2 : b.keyLe c) :
    a.keyLe c := by
  unfold SimEvent.keyLe at *; omega

theorem SimEvent.keyLe_total (a b : SimEvent) : a.keyLe b ∨ b.keyLe a := by
  unfold SimEvent.keyLe; omega

theorem SimEvent.keyLt_keyLe {a b : SimEvent} (h : a.keyLt b) : a.keyLe b := by
  unfold SimEvent.keyLt at h; unfold SimEvent.keyLe; omega

theorem popMin_eq_none {l : List SimEvent} (h : popMin l = none) : l = [] := by
  cases l with
  | nil => rfl
  | cons e rest =>
    rw [popMin] at h
    cases hp : popMin rest <;> rw [hp] at h
    · exact absurd h (by simp)
    · rename_i p
      cases p with
      | mk m r => by_cases hb : SimEvent.keyLeB e m <;> simp [hb] at h

theorem popMin_perm {l : List SimEvent} {e : SimEvent} {r : List SimEvent}
    (h : popMin l = some (e, r)) : l.Perm (e :: r) := by
  induction l generalizing e r with
  | nil => exact absurd h (by simp [popMin])
  | cons x rest ih =>
    rw [popMin] at h
    cases hp : popMin rest <;> rw [hp] at h
    · have hrest := popMin_eq_none hp
      subst hrest
      simp only [Option.some.injEq, Prod.mk.injEq] at h
      obtain ⟨rfl, rfl⟩ := h
      exact List.Perm.refl _
    · rename_i p
      cases p with
      | mk m r' =>
        by_cases hb : SimEvent.keyLeB x m <;> simp only [hb, if_true, if_false,
            Bool.false_eq_true, ite_false, ite_true, Option.some.injEq, Prod.mk.injEq] at h
        · obtain ⟨rfl, rfl⟩ := h
          exact List.Perm.refl _
        · obtain ⟨rfl, rfl⟩ := h
          exact ((ih hp).cons x).trans (List.Perm.swap m x r')

theorem popMin_mem {l : List SimEvent} {e : SimEvent} {r : List SimEvent}
    (h : popMin l = some (e, r)) : e ∈ l :=
  (popMin_perm h).mem_iff.mpr (List.mem_cons_self e r)

theorem popMin_min {l : List SimEvent} {e : SimEvent} {r : List SimEvent}
    (h : popMin l = some (e, r)) : ∀ x ∈ l, e.keyLe x := by
  induction l generalizing e r with
  | nil => exact absurd h (by simp [popMin])
  | cons x rest ih =>
    rw [popMin] at h
    cases hp : popMin rest <;> rw [hp] at h
    · have hrest := popMin_eq_none hp
      subst hrest
      simp only [Option.some.injEq, Prod.mk.injEq] at h
      obtain ⟨rfl, -⟩ := h
      intro y hy
      rw [List.mem_singleton] at hy
      subst hy
      exact SimEvent.keyLe_refl _
    · rename_i p
      cases p with
      | mk m r' =>
        by_cases hb : SimEvent.keyLeB x m <;> simp only [hb, if_true, if_false,
            Bool.false_eq_true, ite_false, ite_true, Option.some.injEq, Prod.mk.injEq] at h
        · obtain ⟨rfl, -⟩ := h
          intro y hy
          rcases List.mem_cons.mp hy with hy | hy
          · subst hy; exact SimEvent.keyLe_refl _
          · exact SimEvent.keyLe_trans ((SimEvent.keyLeB_iff x m).mp hb) (ih hp y hy)
        · obtain ⟨rfl, -⟩ := h
          intro y hy
          rcases List.mem_cons.mp hy with hy | hy
          · subst hy
            rcases SimEvent.keyLe_total m y with hc | hc
            · exact hc
            · have hcb := (SimEvent.keyLeB_iff y m).mpr hc
              exact absurd hcb hb
          · exact ih hp y hy

theorem processOrder_perm {f : Nat} {l : List SimEvent} (h : l.length ≤ f) :
    (processOrder f l).Perm l := by
  induction f generalizing l with
  | zero =>
    have : l = [] := List.length_eq_zero.mp (Nat.le_zero.mp h)
    subst this
    exact List.Perm.refl _
  | succ f ih =>
    rw [processOrder]
    cases hp : popMin l with
    | none =>
      have := popMin_eq_none hp
      subst this
      exact List.Perm.refl _
    | some p =>
      cases p with
      | mk e r =>
        have hperm := popMin_perm hp
        have hlen : r.length ≤ f := by
          have := hperm.length_eq
          simp at this
          omega
        exact ((ih hlen).cons e).trans hperm.symm

theorem processOrder_subset {f : Nat} {l : List SimEvent} {x : SimEvent}
    (h : x ∈ processOrder f l) : x ∈ l := by
  induction f generalizing l with
  | zero => exact absurd h (by simp [processOrder])
  | succ f ih =>
    rw [processOrder] at h
    cases hp : popMin l with
    | none => rw [hp] at h; exact absurd h (by simp)
    | some p =>
      cases p with
      | mk e r =>
        rw [hp] at h
        rcases List.mem_cons.mp h with h | h
        · subst h; exact popMin_mem hp
        · exact (popMin_perm hp).mem_iff.mpr (List.mem_cons_of_mem e (ih h))

theorem processOrder_pairwise (f : Nat) (l : List SimEvent) :
    (processOrder f l).Pairwise SimEvent.keyLe := by
  induction f generalizing l with
  | zero => simp [processOrder]
  | succ f ih =>
    rw [processOrder]
    cases hp : popMin l with
    | none => simp
    | some p =>
      cases p with
      | mk e r =>
        rw [List.pairwise_cons]
        constructor
        · intro x hx
          exact popMin_min hp x ((popMin_perm hp).mem_iff.mpr
            (List.mem_cons_of_mem e (processOrder_subset hx)))
        · exact ih r

theorem popMin_cons_of_min {e : SimEvent} {rest : List SimEvent}
    (h : ∀ x ∈ rest, e.keyLt x) : popMin (e :: rest) = some (e, rest) := by
  rw [popMin]
  cases hp : popMin rest with
  | none => rw [popMin_eq_none hp]
  | some p =>
    cases p with
    | mk m r =>
      have hb : SimEvent.keyLeB e m = true :=
        (SimEvent.keyLeB_iff e m).mpr (SimEvent.keyLt_keyLe (h m (popMin_mem hp)))
      show (if SimEvent.keyLeB e m = true then some (e, rest) else some (m, e :: r)) =
        some (e, rest)
      rw [hb]
      simp

theorem processOrder_of_pairwise {f : Nat} {l : List SimEvent}
    (h : l.Pairwise SimEvent.keyLt) (hf : l.length ≤ f) : processOrder f l = l := by
  induction f generalizing l with
  | zero =>
    have : l = [] := List.length_eq_zero.mp (Nat.le_zero.mp hf)
    subst this; rfl
  | succ f ih =>
    cases l with
    | nil => rfl
    | cons e rest =>
      rw [List.pairwise_cons] at h
      rw [processOrder, popMin_cons_of_min h.1]
      show e :: processOrder f rest = e :: rest
      have hlen : rest.length ≤ f := by simp at hf; omega
      rw [ih h.2 hlen]

/-! ### What `run` does to the receive logs -/

theorem dispatch_events (s : Sim) (e : SimEvent) : (dispatch s e).events = s.events := by
  cases e with
  | mk t q a => cases a <;> rfl

theorem dispatch_msgLog (s : Sim) (e : SimEvent) (d : String) :
    (dispatch s e).msgLog d = s.msgLog d ++ (entryForMsg d e).toList := by
  cases e with
  | mk t q a =>
    cases a with
    | recvMsg dst src msg =>
      by_cases hd : d = dst <;> simp [dispatch, entryForMsg, hd]
    | recvQubit dst src ph => simp [dispatch, entryForMsg]
    | emit dst => simp [dispatch, entryForMsg]

theorem dispatch_qubitLog (s : Sim) (e : SimEvent) (d : String) :
    (dispatch s e).qubitLog d = s.qubitLog d ++ (entryForQubit d e).toList := by
  cases e with
  | mk t q a =>
    cases a with
    | recvMsg dst src msg => simp [dispatch, entryForQubit]
    | recvQubit dst src ph =>
      by_cases hd : d = dst <;> simp [dispatch, entryForQubit, hd]
    | emit dst => simp [dispatch, entryForQubit]

theorem runFuel_msgLog (f : Nat) (s : Sim) (h : s.events.length ≤ f) (d : String) :
    (runFuel f s).msgLog d =
      s.msgLog d ++ (processOrder f s.events).filterMap (entryForMsg d) := by
  induction f generalizing s with
  | zero =>
    have hnil : s.events = [] := List.length_eq_zero.mp (Nat.le_zero.mp h)
    simp [runFuel, processOrder]
  | succ f ih =>
    rw [runFuel, processOrder]
    cases hp : popMin s.events with
    | none => simp
    | some p =>
      cases p with
      | mk e rest =>
        have hlen : rest.length ≤ f := by
          have hl := (popMin_perm hp).length_eq
          simp at hl
          omega
        have hev : (dispatch { s with events := rest } e).events = rest := dispatch_events _ _
        rw [ih _ (by rw [hev]; exact hlen)]
        rw [hev, dispatch_msgLog]
        show s.msgLog d ++ (entryForMsg d e).toList ++ _ = _
        rw [List.filterMap_cons, List.append_assoc]
        cases entryForMsg d e <;> simp

theorem runFuel_qubitLog (f : Nat) (s : Sim) (h : s.events.length ≤ f) (d : String) :
    (runFuel f s).qubitLog d =
      s.qubitLog d ++ (processOrder f s.events).filterMap (entryForQubit d) := by
  induction f generalizing s with
  | zero =>
    have hnil : s.events = [] := List.length_eq_zero.mp (Nat.le_zero.mp h)
    simp [runFuel, processOrder]
  | succ f ih =>
    rw [runFuel, processOrder]
    cases hp : popMin s.events with
    | none => simp
    | some p =>
      cases p with
      | mk e rest =>
        have hlen : rest.length ≤ f := by
          have hl := (popMin_perm hp).length_eq
          simp at hl
          omega
        have hev : (dispatch { s with events := rest } e).events = rest := dispatch_events _ _
        rw [ih _ (by rw [hev]; exact hlen)]
        rw [hev, dispatch_qubitLog]
        show s.qubitLog d ++ (entryForQubit d e).toList ++ _ = _
        rw [List.filterMap_cons, List.append_assoc]
        cases entryForQubit d e <;> simp

theorem run_msgLog (s : Sim) (d : String) :
    s.run.msgLog d =
      s.msgLog d ++ (processOrder s.events.length s.events).filterMap (entryForMsg d) :=
  runFuel_msgLog _ s (Nat.le_refl _) d

theorem run_qubitLog (s : Sim) (d : String) :
    s.run.qubitLog d =
      s.qubitLog d ++ (processOrder s.events.length s.events).filterMap (entryForQubit d) :=
  runFuel_qubitLog _ s (Nat.le_refl _) d

theorem run_msgLog_mem {s : Sim} {e : SimEvent} {d : String} {x : Nat × String × String}
    (he : e ∈ s.events) (hx : entryForMsg d e = some x) : x ∈ s.run.msgLog d := by
  rw [run_msgLog]
  refine List.mem_append_right _ (List.mem_filterMap.mpr ⟨e, ?_, hx⟩)
  exact (processOrder_perm (Nat.le_refl _)).mem_iff.mpr he

/-! ### Interleaved two-node message traffic over one channel

The test drives both directions of a single classical channel: a list of
operations `(direction, payload)` is applied one per picosecond, where
direction `true` is a node1-to-node2 send.  These definitions characterise
the events such a history schedules and the arrivals each node observes. -/

/-- Apply interleaved sends over the ends `(n1, n2)` of one channel, one
send per picosecond: direction `true` sends `n1 → n2`. -/
def applyMsgOps (n1 n2 : Node) (s : Sim) : List (Bool × String) → Sim
  | [] => s
  | (b, m) :: rest =>
    applyMsgOps n1 n2
      ((if b then n1.send_message s n2.name m else n2.send_message s n1.name m).tick) rest

/-- The receive events scheduled by `applyMsgOps` starting at time `t` and
sequence counter `q`. -/
def opsEvents (cc : ClassicalChannel) (name1 name2 : String) (t q : Nat) :
    List (Bool × String) → List SimEvent
  | [] => []
  | (b, m) :: rest =>
    (if b then SimEvent.mk (t + cc.delay) q (SimAction.recvMsg name2 name1 m)
     else SimEvent.mk (t + cc.delay) q (SimAction.recvMsg name1 name2 m)) ::
      opsEvents cc name1 name2 (t + 1) (q + 1) rest

/-- The arrivals observed by the receiver of direction `want`: each message
of that direction sent at clock `t + i` arrives at `t + i + dly`, in send
order. -/
def arrivalsTo (want : Bool) (src : String) (dly t : Nat) :
    List (Bool × String) → List (Nat × String × String)
  | [] => []
  | (b, m) :: rest =>
    if b = want then (t + dly, src, m) :: arrivalsTo want src dly (t + 1) rest
    else arrivalsTo want src dly (t + 1) rest

theorem applyMsgOps_events (cc : ClassicalChannel) (name1 name2 : String)
    (ops : List (Bool × String)) (s : Sim) :
    (applyMsgOps (cc.set_ends name1 name2).1 (cc.set_ends name1 name2).2 s ops).events
      = s.events ++ opsEvents cc name1 name2 s.time s.seqCount ops := by
  induction ops generalizing s with
  | nil => simp [applyMsgOps, opsEvents]
  | cons op rest ih =>
    cases op with
    | mk b m =>
      cases b with
      | true =>
        rw [applyMsgOps, if_pos rfl, ih]
        simp [Node.send_message, ClassicalChannel.set_ends, lookupCC, Sim.schedule,
          Sim.tick, opsEvents]
      | false =>
        rw [applyMsgOps, if_neg (by simp), ih]
        simp [Node.send_message, ClassicalChannel.set_ends, lookupCC, Sim.schedule,
          Sim.tick, opsEvents]

theorem applyMsgOps_msgLog (cc : ClassicalChannel) (name1 name2 : String)
    (ops : List (Bool × String)) (s : Sim) :
    (applyMsgOps (cc.set_ends name1 name2).1 (cc.set_ends name1 name2).2 s ops).msgLog
      = s.msgLog := by
  induction ops generalizing s with
  | nil => rfl
  | cons op rest ih =>
    cases op with
    | mk b m =>
      cases b with
      | true =>
        rw [applyMsgOps, if_pos rfl, ih]
        simp [Node.send_message, ClassicalChannel.set_ends, lookupCC, Sim.schedule, Sim.tick]
      | false =>
        rw [applyMsgOps, if_neg (by simp), ih]
        simp [Node.send_message, ClassicalChannel.set_ends, lookupCC, Sim.schedule, Sim.tick]

theorem opsEvents_time_lb (cc : ClassicalChannel) (name1 name2 : String)
    (t q : Nat) (ops : List (Bool × String)) :
    ∀ e ∈ opsEvents cc name1 name2 t q ops, t + cc.delay ≤ e.time := by
  induction ops generalizing t q with
  | nil => simp [opsEvents]
  | cons op rest ih =>
    cases op with
    | mk b m =>
      intro e he
      rw [opsEvents] at he
      rcases List.mem_cons.mp he with he | he
      · subst he
        cases b <;> simp
      · have := ih (t + 1) (q + 1) e he
        omega

theorem opsEvents_pairwise (cc : ClassicalChannel) (name1 name2 : String)
    (t q : Nat) (ops : List (Bool × String)) :
    (opsEvents cc name1 name2 t q ops).Pairwise SimEvent.keyLt := by
  induction ops generalizing t q with
  | nil => simp [opsEvents]
  | cons op rest ih =>
    cases op with
    | mk b m =>
      rw [opsEvents, List.pairwise_cons]
      refine ⟨?_, ih (t + 1) (q + 1)⟩
      intro e he
      have hlb := opsEvents_time_lb cc name1 name2 (t + 1) (q + 1) rest e he
      cases b <;> (unfold SimEvent.keyLt; simp; omega)

theorem opsEvents_filterMap_fst (cc : ClassicalChannel) (name1 name2 : String)
    (hne : name1 ≠ name2) (t q : Nat) (ops : List (Bool × String)) :
    (opsEvents cc name1 name2 t q ops).filterMap (entryForMsg name1)
      = arrivalsTo false name2 cc.delay t ops := by
  induction ops generalizing t q with
  | nil => simp [opsEvents, arrivalsTo]
  | cons op rest ih =>
    cases op with
    | mk b m =>
      cases b <;>
        simp [opsEvents, arrivalsTo, List.filterMap_cons, entryForMsg, hne,
          Ne.symm hne, ih (t + 1) (q + 1)]

theorem opsEvents_filterMap_snd (cc : ClassicalChannel) (name1 name2 : String)
    (hne : name1 ≠ name2) (t q : Nat) (ops : List (Bool × String)) :
    (opsEvents cc name1 name2 t q ops).filterMap (entryForMsg name2)
      = arrivalsTo true name1 cc.delay t ops := by
  induction ops generalizing t q with
  | nil => simp [opsEvents, arrivalsTo]
  | cons op rest ih =>
    cases op with
    | mk b m =>
      cases b <;>
        simp [opsEvents, arrivalsTo, List.filterMap_cons, entryForMsg, hne,
          Ne.symm hne, ih (t + 1) (q + 1)]

/-- Running any interleaved history over one channel: each node receives
exactly the other direction's messages, in send order, each delayed by the
channel's constant delay, regardless of the sends in the opposite
direction. -/
theorem applyMsgOps_run (cc : ClassicalChannel) (name1 name2 : String)
    (hne : name1 ≠ name2) (ops : List (Bool × String)) (s : Sim) (hev : s.events = []) :
    (applyMsgOps (cc.set_ends name1 name2).1 (cc.set_ends name1 name2).2 s ops).run.msgLog name1
        = s.msgLog name1 ++ arrivalsTo false name2 cc.delay s.time ops
      ∧ (applyMsgOps (cc.set_ends name1 name2).1 (cc.set_ends name1 name2).2 s ops).run.msgLog
          name2
        = s.msgLog name2 ++ arrivalsTo true name1 cc.delay s.time ops := by
  have hevents := applyMsgOps_events cc name1 name2 ops s
  rw [hev] at hevents
  simp only [List.nil_append] at hevents
  have hlog := applyMsgOps_msgLog cc name1 name2 ops s
  have hord := processOrder_of_pairwise
    (l := opsEvents cc name1 name2 s.time s.seqCount ops)
    (opsEvents_pairwise cc name1 name2 s.time s.seqCount ops) (Nat.le_refl _)
  constructor
  · rw [run_msgLog, hevents, hlog, hord, opsEvents_filterMap_fst cc name1 name2 hne]
  · rw [run_msgLog, hevents, hlog, hord, opsEvents_filterMap_snd cc name1 name2 hne]

/-! ### The survival probability as a real number

For the test channel (`attenuation 2e-4`, `distance 2e4`) the survival
probability of the spec is `p = 10^(-2e-4 * 2e4 / 10) = 10^(-2/5)`.  These
lemmas identify the executable `ℕ` comparisons with the real-number
comparisons against `p`. -/

theorem survival_pow : ((10:ℝ) ^ (-(2/5) : ℝ)) ^ (5:ℕ) = 1 / 100 := by
  rw [← Real.rpow_natCast ((10:ℝ) ^ (-(2/5) : ℝ)) 5,
    ← Real.rpow_mul (by norm_num : (0:ℝ) ≤ 10)]
  have h2 : (-(2/5) * ((5:ℕ):ℝ)) = -((2:ℕ):ℝ) := by push_cast; ring
  rw [h2, Real.rpow_neg (by norm_num), Real.rpow_natCast]
  norm_num

theorem survival_pos : 0 < (10:ℝ) ^ (-(2/5) : ℝ) :=
  Real.rpow_pos_of_pos (by norm_num) _

/-- The executable keep-rule of the code equals the real comparison
`u > 1 - p` with `u = k / 2^53` and `p = 10^(-0.4)`. -/
theorem photonKept_iff_real (k : Nat) (hk : k ≤ 2 ^ 53) :
    photonKept attTest 20000 k = true ↔
      1 - (10:ℝ) ^ (-(2/5) : ℝ) < (k : ℝ) / 2 ^ 53 := by
  have hred : photonKept attTest 20000 k
      = Nat.blt ((2 ^ 53 - k) ^ 5 * 10 ^ 2) (2 ^ 265) := rfl
  rw [hred, Nat.blt_eq]
  rw [sub_lt_comm]
  have h1 : 1 - (k:ℝ) / 2 ^ 53 = ((2 ^ 53 - k : ℕ) : ℝ) / 2 ^ 53 := by
    rw [Nat.cast_sub hk]
    push_cast
    field_simp
    norm_num
  rw [h1]
  have hpow : ((2 ^ 53 - k : ℕ) : ℝ) / 2 ^ 53 < (10:ℝ) ^ (-(2/5) : ℝ)
      ↔ (((2 ^ 53 - k : ℕ) : ℝ) / 2 ^ 53) ^ (5:ℕ)
        < ((10:ℝ) ^ (-(2/5) : ℝ)) ^ (5:ℕ) :=
    (pow_lt_pow_iff_left₀ (by positivity) (le_of_lt survival_pos) (by norm_num)).symm
  rw [hpow, survival_pow, div_pow]
  rw [div_lt_div_iff₀ (by positivity) (by norm_num), one_mul]
  have hcast : (((2 ^ 53 - k) ^ 5 * 10 ^ 2 : ℕ) : ℝ)
      = ((2 ^ 53 - k : ℕ) : ℝ) ^ (5:ℕ) * 100 := by
    push_cast
    ring
  rw [show ((2:ℝ) ^ 53) ^ (5:ℕ) = (((2 ^ 265 : ℕ)) : ℝ) by norm_num, ← hcast,
    Nat.cast_lt]

/-- The second uniform draw after `numpy.random.seed(0)` exceeds the
survival probability `p = 10^(-2/5)` itself. -/
theorem mtNumer_one_gt_p : (10:ℝ) ^ (-(2/5) : ℝ) < (mtNumer 1 : ℝ) / 2 ^ 53 := by
  have hk : (mtNumer 1 : ℝ) = ((6441853127788339 : ℕ) : ℝ) := by
    norm_cast
  rw [hk]
  have hpow : (10:ℝ) ^ (-(2/5) : ℝ) < ((6441853127788339 : ℕ) : ℝ) / 2 ^ 53
      ↔ ((10:ℝ) ^ (-(2/5) : ℝ)) ^ (5:ℕ)
        < (((6441853127788339 : ℕ) : ℝ) / 2 ^ 53) ^ (5:ℕ) :=
    (pow_lt_pow_iff_left₀ (le_of_lt survival_pos) (by positivity) (by norm_num)).symm
  rw [hpow, survival_pow, div_pow]
  rw [div_lt_div_iff₀ (by norm_num) (by positivity), one_mul]
  have hcast : ((((6441853127788339 : ℕ)) : ℝ)) ^ (5:ℕ) * 100
      = (((6441853127788339 ^ 5 * 100 : ℕ)) : ℝ) := by
    push_cast
    ring
  rw [show ((2:ℝ) ^ 53) ^ (5:ℕ) = (((2 ^ 265 : ℕ)) : ℝ) by norm_num, hcast,
    Nat.cast_lt]
  decide

/-- One classical send from any state is delivered at exactly
`now() + delay`: the scheduled receive event carries that timestamp and the
run logs it. -/
theorem send_message_delivers (s : Sim) (n : Node) (dst msg : String)
    (cc : ClassicalChannel) (hcc : lookupCC n.cchannels dst = some cc) :
    (s.time + cc.delay, n.name, msg) ∈ (n.send_message s dst msg).run.msgLog dst := by
  have hsend : n.send_message s dst msg
      = s.schedule (s.time + cc.delay) (SimAction.recvMsg dst n.name msg) := by
    rw [Node.send_message, hcc]
  rw [hsend]
  apply run_msgLog_mem
    (e := ⟨s.time + cc.delay, s.seqCount, SimAction.recvMsg dst n.name msg⟩)
  · simp [Sim.schedule]
  · simp [entryForMsg]

/-! ### Claim theorems -/

/-- C1: every classical message sent via `Node.send_message` at virtual time
`t` over a classical channel of delay `d` is received at exactly `t + d`;
in particular, in the `test_Node_send_message` scenario (distance `1e3`,
delay `5e6` ps), node2 receives exactly
`(5000000, node1, "0") … (5000009, node1, "9")`. -/
theorem C1_classical_message_delay :
    (∀ (s : Sim) (n : Node) (dst msg : String) (cc : ClassicalChannel),
        lookupCC n.cchannels dst = some cc →
        (s.time + cc.delay, n.name, msg) ∈ (n.send_message s dst msg).run.msgLog dst)
    ∧ msgScenario.run.msgLog "node2" =
        [(5000000, "node1", "0"), (5000001, "node1", "1"), (5000002, "node1", "2"),
         (5000003, "node1", "3"), (5000004, "node1", "4"), (5000005, "node1", "5"),
         (5000006, "node1", "6"), (5000007, "node1", "7"), (5000008, "node1", "8"),
         (5000009, "node1", "9")] := by
  exact ⟨send_message_delivers, by decide⟩

/-- Witness for C1: a message sent at time 0 over the test channel is
received at exactly `5000000`. -/
theorem C1_classical_message_delay_witness :
    ((sim0 zeroTape).time + ccTest.delay, "node1", "ping")
      ∈ ((msgNodes.1).send_message (sim0 zeroTape) "node2" "ping").run.msgLog "node2" :=
  C1_classical_message_delay.1 (sim0 zeroTape) msgNodes.1 "node2" "ping" ccTest rfl

/-- C3 counterexample: the spec's drop rule ("drop exactly when `u` exceeds
the survival probability `p`") contradicts the asserted outcome.  The second
draw after seed 0 (`u ≈ 0.715`) exceeds `p = 10^(-2/5) ≈ 0.398`, so under the
spec's rule photon "1" would be dropped — `photonKeptSpec` confirms this —
yet the run (whose logs are exactly the test's expected lists) delivers
photon "1" to node2 at time `100000001`. -/
theorem C3_counterexample :
    (10:ℝ) ^ (-(2/5) : ℝ) < (mtNumer 1 : ℝ) / 2 ^ 53
    ∧ photonKeptSpec attTest 20000 (mtNumer 1) = false
    ∧ (100000001, "node1", "1") ∈ qubitScenario.run.qubitLog "node2" :=
  ⟨mtNumer_one_gt_p, by decide, by decide⟩

/-- C3 (amended): `transmit` drops a photon exactly when the uniform draw
`u` is at most the loss probability `1 - p` (keeps it when `u > 1 - p`),
`p = 10^(-attenuation*distance/10)`, and delivers survivors at
`now() + distance/c_fiber`; with numpy seed 0, attenuation `2e-4`, distance
`2e4`, exactly photons 1,2,5,7,8 of node1's ten reach node2 at times
`100000001..100000008` and exactly photons 0,3,7,8,9 of node2's ten reach
node1 at times `100000010..100000019`. -/
theorem C3_quantum_loss :
    (∀ k : Nat, k ≤ 2 ^ 53 →
      (photonKept attTest 20000 k = true
        ↔ 1 - (10:ℝ) ^ (-(2/5) : ℝ) < (k : ℝ) / 2 ^ 53))
    ∧ qubitScenario.run.qubitLog "node2" =
        [(100000001, "node1", "1"), (100000002, "node1", "2"), (100000005, "node1", "5"),
         (100000007, "node1", "7"), (100000008, "node1", "8")]
    ∧ qubitScenario.run.qubitLog "node1" =
        [(100000010, "node2", "0"), (100000013, "node2", "3"), (100000017, "node2", "7"),
         (100000018, "node2", "8"), (100000019, "node2", "9")] :=
  ⟨photonKept_iff_real, by decide, by decide⟩

/-- Witness for C3: the keep-rule characterisation at the draw `k = 2^52`
(`u = 1/2`, below the loss threshold `1 - p ≈ 0.602`, hence dropped). -/
theorem C3_quantum_loss_witness :
    photonKept attTest 20000 4503599627370496 = true
      ↔ 1 - (10:ℝ) ^ (-(2/5) : ℝ) < ((4503599627370496 : ℕ) : ℝ) / 2 ^ 53 :=
  C3_quantum_loss.1 4503599627370496 (by decide)

/-- C4 counterexample: the claim's rate and its concrete delay contradict
each other.  A channel of distance `1e3` metres (1 km) has delay
`5e6` ps — as `ClassicalChannel.make` computes and the test's arrival times
pin — but at the claimed rate `2e-4 s/km`, 1 km would take
`2e-4 * 10^12 = 2e8` ps, which is not `5e6`. -/
theorem C4_counterexample :
    (ClassicalChannel.make attTest 1000).delay = 5000000
    ∧ ((2 : ℚ) / 10 ^ 4) * 10 ^ 12 = 2 * 10 ^ 8
    ∧ (5000000 : Nat) ≠ 200000000 :=
  ⟨rfl, by norm_num, by decide⟩

/-- C4 (amended): a `ClassicalChannel` constructed without an explicit delay
has `delay = distance / c_fiber` where `c_fiber = 2e-4` metres per picosecond
(`= 5e-6 s/km`, not `2e-4 s/km`); in particular a channel of distance `1e3`
has delay `5e6` ps, and a message sent at time `t` over it arrives at
`t + 5e6`. -/
theorem C4_default_delay :
    (∀ (att : ℚ) (d : Nat), (ClassicalChannel.make att d).delay = d * 5000)
    ∧ (∀ d : Nat,
        (((ClassicalChannel.make attTest d).delay : ℚ)) = (d : ℚ) / (2 / 10 ^ 4))
    ∧ (ClassicalChannel.make attTest 1000).delay = 5000000
    ∧ (∀ (s : Sim) (n : Node) (dst msg : String),
        lookupCC n.cchannels dst = some (ClassicalChannel.make attTest 1000) →
        (s.time + 5000000, n.name, msg) ∈ (n.send_message s dst msg).run.msgLog dst) := by
  refine ⟨fun att d => rfl, fun d => ?_, rfl, fun s n dst msg hcc => ?_⟩
  · show ((d * 5000 : Nat) : ℚ) = (d : ℚ) / (2 / 10 ^ 4)
    push_cast
    field_simp
    ring
  · exact send_message_delivers s n dst msg _ hcc

/-- Witness for C4: the sent message over the 1 km channel from the test's
node1 arrives at `0 + 5000000`. -/
theorem C4_default_delay_witness :
    ((sim0 zeroTape).time + 5000000, "node1", "pong")
      ∈ ((msgNodes.1).send_message (sim0 zeroTape) "node2" "pong").run.msgLog "node2" :=
  C4_default_delay.2.2.2 (sim0 zeroTape) msgNodes.1 "node2" "pong" rfl

/-! ### The quantum repeater of `test_QuantumRepeater_schedule` -/

/-- Modelled from the spec: a quantum sender with an emission frequency and
the time of its last scheduled emission.  The repeater of the test has the
default emission frequency `8e7` Hz. -/
structure QuantumRepeater where
  name : String
  frequency : Nat
  lastSend : Option Nat

/-- Modelled from the spec: a fresh repeater with default emission frequency
`8e7` Hz and no emission scheduled yet. -/
def QuantumRepeater.init (name : String) : QuantumRepeater :=
  ⟨name, 80000000, none⟩

/-- Modelled from the spec: `schedule_send_qubit` enforces the minimum
inter-emission interval `1e12 / frequency` picoseconds: the emission is
scheduled at `send_time = max(now(), requested_time, last_send + interval)`
and `last_send` is updated to it. -/
def QuantumRepeater.schedule_send_qubit (qr : QuantumRepeater) (s : Sim)
    (dst : String) (minTime : Nat) : QuantumRepeater × Sim :=
  let interval := 10 ^ 12 / qr.frequency
  let lastPlus :=
    match qr.lastSend with
    | none => 0
    | some t => t + interval
  let sendTime := max (max s.time minTime) lastPlus
  ({ qr with lastSend := some sendTime }, s.schedule sendTime (SimAction.emit dst))

/-- The three scheduling calls of `test_QuantumRepeater_schedule`: requested
times 0, 0 and `1e12`, with `now() = 0`. -/
def repeaterScenario : Sim :=
  let qr0 := QuantumRepeater.init "qr"
  let p1 := qr0.schedule_send_qubit (sim0 zeroTape) "alice" 0
  let p2 := p1.1.schedule_send_qubit p1.2 "alice" 0
  (p2.1.schedule_send_qubit p2.2 "alice" 1000000000000).2

/-- C2: a quantum sender enforces the minimum inter-emission interval
`1e12 / frequency` ps: once an emission is scheduled at `t`, the next is
scheduled no earlier than `t + 1e12/frequency`; concretely, on a repeater
with emission frequency `8e7` Hz, requests at times 0, 0 and `1e12` are
scheduled at exactly 0, 12500 and `1e12`. -/
theorem C2_repeater_rate_limit :
    (∀ (qr : QuantumRepeater) (s : Sim) (dst : String) (mt t : Nat),
        qr.lastSend = some t →
        ∃ e : SimEvent,
          (qr.schedule_send_qubit s dst mt).2.events = s.events ++ [e]
          ∧ t + 10 ^ 12 / qr.frequency ≤ e.time
          ∧ (qr.schedule_send_qubit s dst mt).1.lastSend = some e.time)
    ∧ repeaterScenario.events.map SimEvent.time = [0, 12500, 1000000000000] := by
  constructor
  · intro qr s dst mt t h
    refine ⟨⟨max (max s.time mt) (t + 10 ^ 12 / qr.frequency), s.seqCount,
      SimAction.emit dst⟩, ?_, ?_, ?_⟩
    · simp [QuantumRepeater.schedule_send_qubit, h, Sim.schedule]
    · exact Nat.le_max_right _ _
    · simp [QuantumRepeater.schedule_send_qubit, h]
  · decide

/-- Witness for C2: after the first emission at time 0 on the test repeater,
the next scheduled emission respects the `12500` ps interval. -/
theorem C2_repeater_rate_limit_witness :
    ∃ e : SimEvent,
      ((QuantumRepeater.mk "qr" 80000000 (some 0)).schedule_send_qubit
          (sim0 zeroTape) "alice" 0).2.events = (sim0 zeroTape).events ++ [e]
      ∧ 0 + 10 ^ 12 / 80000000 ≤ e.time
      ∧ ((QuantumRepeater.mk "qr" 80000000 (some 0)).schedule_send_qubit
          (sim0 zeroTape) "alice" 0).1.lastSend = some e.time :=
  C2_repeater_rate_limit.1 (QuantumRepeater.mk "qr" 80000000 (some 0))
    (sim0 zeroTape) "alice" 0 0 rfl

/-! ### Entity registration and `Timeline.init` -/

/-- Modelled from the spec: registering an entity (e.g. a protocol attached
to a node) appends it, uninitialised, to the timeline's registry. -/
def Sim.register (s : Sim) (name : String) : Sim :=
  { s with entities := s.entities ++ [(name, false)] }

/-- Modelled from the spec: `Timeline.init()` invokes `init()` on every
registered entity in registration order, exactly once; a second call is a
no-op.  `initCalls` records each `init()` invocation in order; each entity's
flag records that its `init()` ran (the test protocol's `self.flag`). -/
def tlInit (s : Sim) : Sim :=
  if s.initDone then s
  else
    { s with entities := s.entities.map (fun p => (p.1, true)),
             initCalls := s.initCalls ++ s.entities.map Prod.fst,
             initDone := true }

/-- C6: `Timeline.init()` invokes `init()` exactly once on every registered
entity, in registration order; an entity registered on a fresh timeline is
uninitialised before `tl.init()` and initialised after it; and a second
`tl.init()` is a no-op (never a silent re-initialisation). -/
theorem C6_init_once :
    (∀ s : Sim, s.initDone = false →
      (tlInit s).initCalls = s.initCalls ++ s.entities.map Prod.fst
      ∧ (tlInit s).entities = s.entities.map (fun p => (p.1, true)))
    ∧ (∀ s : Sim, tlInit (tlInit s) = tlInit s)
    ∧ ((sim0 zeroTape).register "node.protocol").entities = [("node.protocol", false)]
    ∧ (tlInit ((sim0 zeroTape).register "node.protocol")).entities
        = [("node.protocol", true)] := by
  refine ⟨fun s h => ?_, fun s => ?_, by decide, by decide⟩
  · simp [tlInit, h]
  · by_cases h : s.initDone <;> simp [tlInit, h]

/-- Witness for C6: one `tl.init()` on the test registry records exactly one
`init()` call, in order. -/
theorem C6_init_once_witness :
    (tlInit ((sim0 zeroTape).register "node.protocol")).initCalls
        = ((sim0 zeroTape).register "node.protocol").initCalls
          ++ ((sim0 zeroTape).register "node.protocol").entities.map Prod.fst
      ∧ (tlInit ((sim0 zeroTape).register "node.protocol")).entities
        = ((sim0 zeroTape).register "node.protocol").entities.map (fun p => (p.1, true)) :=
  C6_init_once.1 ((sim0 zeroTape).register "node.protocol") rfl

/-! ### Sends do not touch the receive logs -/

theorem send_message_msgLog (n : Node) (s : Sim) (dst m : String) :
    (n.send_message s dst m).msgLog = s.msgLog := by
  rw [Node.send_message]
  cases lookupCC n.cchannels dst <;> rfl

theorem send_message_qubitLog (n : Node) (s : Sim) (dst m : String) :
    (n.send_message s dst m).qubitLog = s.qubitLog := by
  rw [Node.send_message]
  cases lookupCC n.cchannels dst <;> rfl

theorem send_qubit_msgLog (n : Node) (s : Sim) (dst ph : String) :
    (n.send_qubit s dst ph).msgLog = s.msgLog := by
  rw [Node.send_qubit]
  cases lookupQC n.qchannels dst with
  | none => rfl
  | some qc =>
    by_cases h : photonKept qc.attenuation qc.distance (s.urand s.rngIdx) <;>
      simp [h, Sim.schedule]

theorem send_qubit_qubitLog (n : Node) (s : Sim) (dst ph : String) :
    (n.send_qubit s dst ph).qubitLog = s.qubitLog := by
  rw [Node.send_qubit]
  cases lookupQC n.qchannels dst with
  | none => rfl
  | some qc =>
    by_cases h : photonKept qc.attenuation qc.distance (s.urand s.rngIdx) <;>
      simp [h, Sim.schedule]

/-- C9: `send_message` and `send_qubit` never invoke the receiver
synchronously: after any sequence of sends and clock advances, every node's
receive logs are exactly as before; in particular, in both test scenarios
all twenty sends leave both nodes' logs empty until `run()` delivers them
(C1's and C3's theorems give the logs after `run()`). -/
theorem C9_no_synchronous_receive :
    (∀ (ops : List SendOp) (s : Sim),
      (applySendOps s ops).msgLog = s.msgLog ∧ (applySendOps s ops).qubitLog = s.qubitLog)
    ∧ msgScenario.msgLog "node1" = [] ∧ msgScenario.msgLog "node2" = []
    ∧ qubitScenario.qubitLog "node1" = [] ∧ qubitScenario.qubitLog "node2" = [] := by
  refine ⟨fun ops => ?_, by decide, by decide, by decide, by decide⟩
  induction ops with
  | nil => exact fun s => ⟨rfl, rfl⟩
  | cons op rest ih =>
    intro s
    cases op with
    | msg n dst m =>
      rw [applySendOps]
      exact ⟨(ih _).1.trans (send_message_msgLog n s dst m),
        (ih _).2.trans (send_message_qubitLog n s dst m)⟩
    | qubit n dst ph =>
      rw [applySendOps]
      exact ⟨(ih _).1.trans (send_qubit_msgLog n s dst ph),
        (ih _).2.trans (send_qubit_qubitLog n s dst ph)⟩
    | wait =>
      rw [applySendOps]
      exact ⟨(ih _).1, (ih _).2⟩

/-! ### FIFO arrival lists -/

/-- The arrivals of a one-direction burst: message `i` of the list, sent at
clock `t + i`, arrives at `t + i + dly`, in send order. -/
def expectedArrivals (src : String) (dly t : Nat) :
    List String → List (Nat × String × String)
  | [] => []
  | m :: ms => (t + dly, src, m) :: expectedArrivals src dly (t + 1) ms

theorem arrivalsTo_map_true (src : String) (dly t : Nat) (msgs : List String) :
    arrivalsTo true src dly t (msgs.map fun m => (true, m))
      = expectedArrivals src dly t msgs := by
  induction msgs generalizing t with
  | nil => rfl
  | cons m ms ih => simp [arrivalsTo, expectedArrivals, ih]

/-- C5: `N` messages enqueued on one classical channel of delay `d` at times
`t, t+1, …, t+N-1` arrive in send order at exactly `t+d, t+d+1, …`; and, in
general, events are executed in `(time, seq)` order, so two events scheduled
at the same virtual time execute in the order they were scheduled (their
insertion sequence numbers). -/
theorem C5_fifo_ordering :
    (∀ (cc : ClassicalChannel) (name1 name2 : String), name1 ≠ name2 →
      ∀ (msgs : List String) (s : Sim), s.events = [] →
      (applyMsgOps (cc.set_ends name1 name2).1 (cc.set_ends name1 name2).2 s
          (msgs.map fun m => (true, m))).run.msgLog name2
        = s.msgLog name2 ++ expectedArrivals name1 cc.delay s.time msgs)
    ∧ (∀ (l : List SimEvent) (f : Nat), l.length ≤ f →
        l.Pairwise (fun a b => a.seq < b.seq) →
        (processOrder f l).Perm l
        ∧ (processOrder f l).Pairwise SimEvent.keyLe
        ∧ (processOrder f l).Pairwise (fun a b => a.time = b.time → a.seq < b.seq)) := by
  constructor
  · intro cc name1 name2 hne msgs s hev
    rw [(applyMsgOps_run cc name1 name2 hne (msgs.map fun m => (true, m)) s hev).2,
      arrivalsTo_map_true]
  · intro l f hf hseq
    have hperm := processOrder_perm (l := l) hf
    have hle := processOrder_pairwise f l
    have hne_l : l.Pairwise (fun a b => a.seq ≠ b.seq) :=
      hseq.imp (fun h => Nat.ne_of_lt h)
    have hne_o : (processOrder f l).Pairwise (fun a b => a.seq ≠ b.seq) :=
      (hperm.symm.pairwise_iff (fun h' => Ne.symm h')).mp hne_l
    refine ⟨hperm, hle, (hle.and hne_o).imp ?_⟩
    intro a b hab ht
    rcases hab with ⟨hab_le, hab_ne⟩
    unfold SimEvent.keyLe at hab_le
    omega

/-- Witness for C5: two messages sent at times 0 and 1 over the 1 km test
channel arrive at `5000000` and `5000001`, and a concrete two-event queue is
processed in scheduled order. -/
theorem C5_fifo_ordering_witness :
    ((applyMsgOps (ccTest.set_ends "node1" "node2").1 (ccTest.set_ends "node1" "node2").2
        (sim0 zeroTape) (["a", "b"].map fun m => (true, m))).run.msgLog "node2"
      = (sim0 zeroTape).msgLog "node2"
        ++ expectedArrivals "node1" ccTest.delay (sim0 zeroTape).time ["a", "b"])
    ∧ ((processOrder 2 [⟨7, 0, SimAction.emit "x"⟩, ⟨7, 1, SimAction.emit "y"⟩]).Perm
          [⟨7, 0, SimAction.emit "x"⟩, ⟨7, 1, SimAction.emit "y"⟩]
        ∧ (processOrder 2 [⟨7, 0, SimAction.emit "x"⟩,
            ⟨7, 1, SimAction.emit "y"⟩]).Pairwise SimEvent.keyLe
        ∧ (processOrder 2 [⟨7, 0, SimAction.emit "x"⟩,
            ⟨7, 1, SimAction.emit "y"⟩]).Pairwise
              (fun a b => a.time = b.time → a.seq < b.seq)) :=
  ⟨C5_fifo_ordering.1 ccTest "node1" "node2" (by decide) ["a", "b"] (sim0 zeroTape) rfl,
    C5_fifo_ordering.2 [⟨7, 0, SimAction.emit "x"⟩, ⟨7, 1, SimAction.emit "y"⟩] 2
      (by decide) (by simp)⟩

/-- C10: a single `ClassicalChannel` installed with `set_ends(node1, node2)`
is bidirectional: any interleaved history of sends in both directions
traverses the same channel object with the same delay, and each node's
deliveries are exactly its own incoming direction's messages in send order —
sends in one direction neither delay nor reorder deliveries in the other.
Concretely, the twenty-message test exchange yields exactly the two asserted
logs. -/
theorem C10_bidirectional_channel :
    (∀ (cc : ClassicalChannel) (name1 name2 : String), name1 ≠ name2 →
      ∀ (ops : List (Bool × String)) (s : Sim), s.events = [] →
      (applyMsgOps (cc.set_ends name1 name2).1 (cc.set_ends name1 name2).2 s ops).run.msgLog
          name1
        = s.msgLog name1 ++ arrivalsTo false name2 cc.delay s.time ops
      ∧ (applyMsgOps (cc.set_ends name1 name2).1 (cc.set_ends name1 name2).2 s ops).run.msgLog
          name2
        = s.msgLog name2 ++ arrivalsTo true name1 cc.delay s.time ops)
    ∧ msgScenario.run.msgLog "node1" =
        [(5000010, "node2", "0"), (5000011, "node2", "1"), (5000012, "node2", "2"),
         (5000013, "node2", "3"), (5000014, "node2", "4"), (5000015, "node2", "5"),
         (5000016, "node2", "6"), (5000017, "node2", "7"), (5000018, "node2", "8"),
         (5000019, "node2", "9")]
    ∧ msgScenario.run.msgLog "node2" =
        [(5000000, "node1", "0"), (5000001, "node1", "1"), (5000002, "node1", "2"),
         (5000003, "node1", "3"), (5000004, "node1", "4"), (5000005, "node1", "5"),
         (5000006, "node1", "6"), (5000007, "node1", "7"), (5000008, "node1", "8"),
         (5000009, "node1", "9")] :=
  ⟨fun cc name1 name2 hne ops s hev => applyMsgOps_run cc name1 name2 hne ops s hev,
    by decide, by decide⟩

/-- Witness for C10: one message each way over the test channel, sent at
times 0 and 1; node1 receives node2's message at `5000001` and node2
receives node1's at `5000000`, each via the same channel's delay. -/
theorem C10_bidirectional_channel_witness :
    ((applyMsgOps (ccTest.set_ends "node1" "node2").1 (ccTest.set_ends "node1" "node2").2
        (sim0 zeroTape) [(true, "x"), (false, "y")]).run.msgLog "node1"
      = (sim0 zeroTape).msgLog "node1"
        ++ arrivalsTo false "node2" ccTest.delay (sim0 zeroTape).time
            [(true, "x"), (false, "y")])
    ∧ ((applyMsgOps (ccTest.set_ends "node1" "node2").1 (ccTest.set_ends "node1" "node2").2
        (sim0 zeroTape) [(true, "x"), (false, "y")]).run.msgLog "node2"
      = (sim0 zeroTape).msgLog "node2"
        ++ arrivalsTo true "node1" ccTest.delay (sim0 zeroTape).time
            [(true, "x"), (false, "y")]) :=
  C10_bidirectional_channel.1 ccTest "node1" "node2" (by decide)
    [(true, "x"), (false, "y")] (sim0 zeroTape) rfl
